import Mathlib

/-!
# Verification of the Reed-Solomon erasure-coding core

A shallow embedding, in Lean 4, of the Reed-Solomon codec and the
erasure-coded block device of this repository:

* `pkg/reedsolomon/galois.go` — Galois-field arithmetic (`GaloisField`:
  `add`, `mul`, `inv`, `div`, `pow`), vector/matrix kernels
  (`vec_vec_dot`, `mtx_vec_dot`, `mtx_identity`, `mtx_vandermonde`,
  `mtx_xform_vandermonde`, `mtx_inv`), and the erasure-coded device
  (`ErasureCoder` with `ReadAt` / `WriteAt` / `denseReadAt` /
  `denseWriteAt`).
* `pkg/ecblockdev/ecblockdev.go` — the codec object (`Code`, `NewCode`,
  `EncodeAligned`, `DecodeAligned`, `Rebuild`, `buildMatrix`, `Slice`).

Modelling conventions:

* Go's `poly` is `uint64`; field elements and intermediates in every
  modelled execution stay far below `2^64` (for the default `m = 8`, all
  intermediates are `< 2^15`), so they are embedded as `Nat` without a
  wrap-around; the one place the 64-bit width is visible, the bit-clear
  `prd & ^mask`, is embedded literally as an AND with the 64-bit
  complement of the mask.
* Byte stores `byte(x)` are embedded as `x % 256`.
* Go's in-place matrix mutation (`mtx_inv` rewrites its argument) is
  embedded by explicit state threading of the evolving pair of matrices.
* Go indexing `xs[i]` panics when out of range.  Where a claim's inputs
  keep every access in range the access is embedded as `getD` with a
  default; in `Rebuild`, whose initialization loop reads `slices[i]` for
  every `i < n+k`, the panic is modelled: the function returns `none`
  when the access is out of range.
* The device's per-backend goroutine fan-out is sequentialized: backends
  are total byte stores and read results are collected in backend order
  (one admissible schedule, and the behaviour of the sequential
  `erasurecoder` variant in the source).
-/

namespace RS

/-- Error kinds, mirroring the `errors.New` values across the packages. -/
inductive Err where
  | misaligned
  | tooFewSlices
  | sliceMismatch
  | dimensionMismatch
  | noninvertibleMatrix
  | zeroDivision
  | insufficientFieldSize
  | notImplemented
  deriving DecidableEq

/-- Galois field descriptor: `GF(2^m)` with generating polynomial `p`
(including its leading `x^m` term). Mirrors `GaloisField` in galois.go. -/
structure GaloisField where
  m : Nat
  p : Nat
  deriving DecidableEq

/-- Number of elements of the Galois field (`size` in galois.go). -/
def size (g : GaloisField) : Nat := 1 <<< g.m

/-- Field addition `x + y`: XOR (`add` in galois.go). -/
def add (_g : GaloisField) (x y : Nat) : Nat := x ^^^ y

/-- The carry-less multiplication loop of `mul`: for at most `fuel`
iterations (Go: `i < m`), XOR `v2 <<< i` into the accumulator when the
low bit of `v1` is set, then shift `v1` right, breaking once it is zero. -/
def mulLoop (v1 v2 i fuel prd : Nat) : Nat :=
  match fuel with
  | 0 => prd
  | fuel + 1 =>
    let prd' := if v1 &&& 1 ≠ 0 then prd ^^^ (v2 <<< i) else prd
    let v1' := v1 >>> 1
    if v1' = 0 then prd' else mulLoop v1' v2 (i + 1) fuel prd'

/-- One step of the modular reduction in `mul`: if bit `m+j` of `prd` is
set, clear it (`prd & ^mask` on Go's uint64, i.e. AND with the 64-bit
complement of the mask) and XOR in `pol <<< j`, the shifted low-order
terms of the generating polynomial. -/
def redStep (m pol j prd : Nat) : Nat :=
  if prd &&& (1 <<< (m + j)) ≠ 0 then
    (prd &&& ((1 <<< 64 - 1) ^^^ (1 <<< (m + j)))) ^^^ (pol <<< j)
  else prd

/-- The reduction loop of `mul`: Go iterates the shift amount `i` from
`m-2` down to `0`, so the loop is entered with `cnt = m-1`. -/
def redLoop (m pol : Nat) (cnt prd : Nat) : Nat :=
  match cnt with
  | 0 => prd
  | j + 1 => redLoop m pol j (redStep m pol j prd)

/-- Field multiplication `x * y` (`mul` in galois.go): carry-less multiply
then reduce modulo the low-order terms of `p`. -/
def mul (g : GaloisField) (x y : Nat) : Nat :=
  redLoop g.m (g.p ^^^ (1 <<< g.m)) (g.m - 1) (mulLoop x y 0 g.m 0)

/-- Field inverse `1 / x` (`inv` in galois.go): fails with `ZeroDivision`
on 0; otherwise searches `1, 2, ...` for the first `i` with
`mul x i = 1`; if the search exhausts the field, Go returns `(1, nil)`. -/
def inv (g : GaloisField) (x : Nat) : Except Err Nat :=
  if x = 0 then .error .zeroDivision
  else
    match (List.range' 1 (size g - 1)).find? (fun i => mul g x i = 1) with
    | some i => .ok i
    | none => .ok 1

/-- Field division `x / y` (`div` in galois.go). -/
def div (g : GaloisField) (x y : Nat) : Except Err Nat := do
  let yinv ← inv g y
  return mul g x yinv

/-- Field power `b ^ e` by repeated multiplication (`pow` in galois.go). -/
def pow (g : GaloisField) (b e : Nat) : Nat :=
  match e with
  | 0 => 1
  | e + 1 => mul g (pow g b e) b

/-- Vector dot product (`vec_vec_dot` in galois.go): fails with
`DimensionMismatch` when the lengths differ. -/
def vecVecDot (g : GaloisField) (v1 v2 : List Nat) : Except Err Nat :=
  if v1.length ≠ v2.length then .error .dimensionMismatch
  else .ok ((List.zip v1 v2).foldl (fun prd xy => add g prd (mul g xy.1 xy.2)) 0)

/-- Matrices are row-major lists of rows of field elements. -/
abbrev Matrix := List (List Nat)

/-- Matrix-vector product `A * v` (`mtx_vec_dot` in galois.go). -/
def mtxVecDot (g : GaloisField) (A : Matrix) (v : List Nat) : Except Err (List Nat) :=
  A.mapM (fun row => vecVecDot g row v)

/-- Entry access `A[i][j]` (0 when out of range; all verified uses are in
range). -/
def mget (A : Matrix) (i j : Nat) : Nat := (A.getD i []).getD j 0

/-- Entry update `A[i][j] = v` (no-op when out of range; all verified uses
are in range). -/
def mset (A : Matrix) (i j v : Nat) : Matrix := A.set i ((A.getD i []).set j v)

/-- Identity matrix (`mtx_identity` in galois.go). -/
def mtxIdentity (n : Nat) : Except Err Matrix :=
  if n ≤ 0 then .error .dimensionMismatch
  else .ok ((List.range n).map (fun i => (List.range n).map (fun j => if i = j then 1 else 0)))

/-- Vandermonde matrix, `n+k` rows by `n` columns, entry `[i][j] = i^j`
(`mtx_vandermonde` in galois.go); fails with `InsufficientFieldSize` when
`n+k` exceeds the field size. -/
def mtxVandermonde (g : GaloisField) (n k : Nat) : Except Err Matrix :=
  if n + k > size g then .error .insufficientFieldSize
  else .ok ((List.range (n + k)).map (fun i => (List.range n).map (fun j => pow g i j)))

/-- Transformed Vandermonde matrix (`mtx_xform_vandermonde` in galois.go,
called `xformVandermondeMtx` by `NewCode`): for each row `i` from 1 to
`n-1`, divide row `i` by its diagonal element, then for every other
column `j` add `mtx[i][j]` times column `i` to column `j`, over all `n+k`
rows. -/
def mtxXformVandermonde (g : GaloisField) (n k : Nat) : Except Err Matrix := do
  let mtx ← mtxVandermonde g n k
  (List.range' 1 (n - 1)).foldlM (fun mtx i => do
    -- ensure the diagonal element is 1 by dividing row i by it
    let d := mget mtx i i
    let mtx ← (List.range n).foldlM (fun mtx j => do
      let v ← div g (mget mtx i j) d
      return mset mtx i j v) mtx
    -- fixup the rest of the row by column operations over all n+k rows
    return (List.range n).foldl (fun mtx j =>
      if j = i then mtx
      else
        let s := mget mtx i j
        (List.range (n + k)).foldl (fun mtx l =>
          mset mtx l j (add g (mul g s (mget mtx l i)) (mget mtx l j))) mtx) mtx) mtx

/-- One iteration `i` of the Gauss-Jordan loop of `mtx_inv`, acting on the
evolving pair (A, I). -/
def mtxInvStep (g : GaloisField) (n : Nat) (st : Matrix × Matrix) (i : Nat) :
    Except Err (Matrix × Matrix) := do
  let (A, I) := st
  -- if the diagonal element is 0, add the first column that is non-zero
  -- in row i to column i (in both A and I)
  let (A, I) :=
    if mget A i i = 0 then
      match (List.range n).find? (fun j => mget A i j ≠ 0) with
      | some j =>
        ((List.range n).foldl (fun A k => mset A k i (add g (mget A k i) (mget A k j))) A,
         (List.range n).foldl (fun I k => mset I k i (add g (mget I k i) (mget I k j))) I)
      | none => (A, I)
    else (A, I)
  -- if it's still 0, error out
  if mget A i i = 0 then throw .noninvertibleMatrix
  else do
    -- divide column i by the diagonal element, if it isn't 1
    let (A, I) ←
      if mget A i i ≠ 1 then
        let v := mget A i i
        (List.range n).foldlM (fun (st : Matrix × Matrix) j => do
          let (A, I) := st
          let f1 ← div g (mget A j i) v
          let f2 ← div g (mget I j i) v
          return (mset A j i f1, mset I j i f2)) (A, I)
      else pure (A, I)
    -- now zero out the rest of the row by column operations
    return (List.range n).foldl (fun (st : Matrix × Matrix) j =>
      let (A, I) := st
      if j = i ∨ mget A i j = 0 then (A, I)
      else
        let v := mget A i j
        ((List.range n).foldl (fun A k => mset A k j (add g (mul g v (mget A k i)) (mget A k j))) A,
         (List.range n).foldl (fun I k => mset I k j (add g (mul g v (mget I k i)) (mget I k j))) I))
      (A, I)

/-- Matrix inversion by Gauss-Jordan elimination over the field (`mtx_inv`
in galois.go, called `invertMtx` by `buildMatrix`).  The source mutates
its argument and the identity accumulator in place; the evolving pair is
threaded explicitly and the final accumulator is returned. -/
def mtxInv (g : GaloisField) (A : Matrix) : Except Err Matrix := do
  let n := A.length
  if n ≠ (A.getD 0 []).length then throw .noninvertibleMatrix
  else do
    let I ← mtxIdentity n
    let (_, I) ← (List.range n).foldlM (mtxInvStep g n) (A, I)
    return I

/-- Default field exponent (`M` in ecblockdev.go): GF(2^8). -/
def Mdefault : Nat := 8

/-- Default generating polynomial (`P` in ecblockdev.go):
`x^8+x^6+x^5+x^2+1`, decimal 357. -/
def Pdefault : Nat := 357

/-- The default Galois field `GF(2^8)` with `p = 357` used by `NewCode`. -/
def gf : GaloisField := ⟨Mdefault, Pdefault⟩

/-- A slice: code index, length, and data bytes (`Slice` in
ecblockdev.go). -/
structure Slice where
  Index : Nat
  Length : Nat
  Data : List Nat
  deriving DecidableEq, Inhabited

/-- A Reed-Solomon code: field, data/parity slice counts, generator
matrix (`Code` in ecblockdev.go). -/
structure Code where
  field : GaloisField
  n : Nat
  k : Nat
  mtx : Matrix
  deriving DecidableEq

/-- `NewCode` in ecblockdev.go: build the transformed Vandermonde
generator over the default field. -/
def NewCode (n k : Nat) : Except Err Code := do
  let mat ← mtxXformVandermonde gf n k
  return ⟨gf, n, k, mat⟩

/-- `GetN` in ecblockdev.go. -/
def GetN (c : Code) : Nat := c.n

/-- Split a buffer into its consecutive stripes of `n` bytes (the
per-stripe loop of `EncodeAligned` reads the buffer `n` bytes at a
time); recursion on an explicit fuel equal to the buffer length. -/
def chunksF (fuel n : Nat) (l : List Nat) : List (List Nat) :=
  match fuel, l with
  | 0, _ => []
  | _, [] => []
  | fuel + 1, l => l.take n :: chunksF fuel n (l.drop n)

/-- The stripes of a buffer. -/
def chunks (n : Nat) (l : List Nat) : List (List Nat) := chunksF l.length n l

/-- `EncodeAligned` in ecblockdev.go: encode an aligned byte array into
`n+k` slices: for each stripe `v`, `cod = G*v`, and byte `i` of slice `j`
is `byte(cod[j])`. -/
def EncodeAligned (c : Code) (buf : List Nat) : Except Err (List Slice) :=
  if buf.length % c.n ≠ 0 then .error .misaligned
  else do
    let cods ← (chunks c.n buf).mapM (fun v => mtxVecDot c.field c.mtx v)
    return (List.range (c.n + c.k)).map (fun j =>
      ⟨j, buf.length / c.n, cods.map (fun cod => cod.getD j 0 % 256)⟩)

/-- `buildMatrix` in ecblockdev.go: select the generator rows named by the
first `n` slices' indices into a fresh `n` by `n` matrix and invert it. -/
def buildMatrix (c : Code) (slices : List Slice) : Except Err Matrix :=
  if slices.length < c.n then .error .tooFewSlices
  else
    let idx := (List.range c.n).map (fun i => (slices.getD i default).Index)
    let sub := idx.map (fun ix => (List.range c.n).map (fun j => mget c.mtx ix j))
    mtxInv c.field sub

/-- `DecodeAligned` in ecblockdev.go: invert the generator rows selected
by the first `n` slices, then per byte position `i` decode the vector of
`i`-th bytes of those slices and concatenate the results. -/
def DecodeAligned (c : Code) (slices : List Slice) : Except Err (List Nat) :=
  if slices.length < c.n then .error .tooFewSlices
  else do
    let mtx ← buildMatrix c slices
    let L := ((slices.getD 0 default).Data).length
    let stripes ← (List.range L).mapM (fun i =>
      mtxVecDot c.field mtx ((List.range c.n).map (fun j => ((slices.getD j default).Data).getD i 0)))
    return stripes.foldr (fun dat acc => dat.map (fun x => x % 256) ++ acc) []

/-- The result-initialization loop of `Rebuild`: for each `i < n+k` in
order, Go reads `slices[i]` — a runtime panic (`none` here) when `i` is
out of range — then either keeps the input slice (checking its length) or
allocates a zeroed slice. -/
def rebuildInit (slices : List Slice) (length : Nat) :
    List Nat → Option (Except Err (List Slice))
  | [] => some (.ok [])
  | i :: rest =>
    if i < slices.length then
      let s := slices.getD i default
      if i = s.Index then
        if s.Length ≠ length then some (.error .sliceMismatch)
        else
          match rebuildInit slices length rest with
          | none => none
          | some (.error e) => some (.error e)
          | some (.ok tl) => some (.ok (⟨i, length, s.Data⟩ :: tl))
      else
        match rebuildInit slices length rest with
        | none => none
        | some (.error e) => some (.error e)
        | some (.ok tl) => some (.ok (⟨i, length, List.replicate length 0⟩ :: tl))
    else none

/-- `Rebuild` in ecblockdev.go: regenerate all `n+k` slices from the
input slices.  The initialization loop indexes `slices[i]` for every
`i < n+k`, so the call panics (`none`) whenever fewer than `n+k` slices
are supplied; otherwise each stripe is decoded, re-encoded with the
generator, and the regenerated bytes are written into the slices not
kept verbatim. -/
def Rebuild (c : Code) (slices : List Slice) : Option (Except Err (List Slice)) :=
  if slices.length < c.n then some (.error .tooFewSlices)
  else
    match buildMatrix c slices with
    | .error e => some (.error e)
    | .ok mtx =>
      let length := (slices.getD 0 default).Length
      match rebuildInit slices length (List.range (c.n + c.k)) with
      | none => none
      | some (.error e) => some (.error e)
      | some (.ok result0) =>
        let L := ((slices.getD 0 default).Data).length
        let recompute : Except Err (List Slice) := do
          let cods ← (List.range L).mapM (fun i => do
            let vec := (List.range c.n).map (fun j => ((slices.getD j default).Data).getD i 0)
            let dat ← mtxVecDot c.field mtx vec
            mtxVecDot c.field c.mtx dat)
          return result0.map (fun s =>
            if s.Index = (slices.getD s.Index default).Index then s
            else ⟨s.Index, s.Length,
                  (List.range s.Length).map (fun i =>
                    if i < L then (cods.getD i []).getD s.Index 0 % 256 else 0)⟩)
        some recompute

/-! ## The erasure-coded block device (`ErasureCoder` in galois.go)

Backends (the external `types.Backend` contract) are modelled as total
byte stores: `ReadAt` always succeeds and `WriteAt` replaces the
addressed range.  The goroutine fan-out of `denseReadAt` is
sequentialized to backend order. -/

/-- A replica backend: a total slice-local byte store. -/
structure Backend where
  data : Nat → Nat

/-- The all-zero backend of a fresh device. -/
def zeroBackend : Backend := ⟨fun _ => 0⟩

instance : Inhabited Backend := ⟨zeroBackend⟩

/-- `backend.ReadAt`: read `len` bytes at slice-local offset `off`. -/
def backendReadAt (b : Backend) (len off : Nat) : List Nat :=
  (List.range len).map (fun i => b.data (off + i))

/-- `backend.WriteAt`: write `buf` at slice-local offset `off`. -/
def backendWriteAt (b : Backend) (buf : List Nat) (off : Nat) : Backend :=
  ⟨fun a => if off ≤ a ∧ a < off + buf.length then buf.getD (a - off) 0 else b.data a⟩

/-- The erasure-coded device (`ErasureCoder` in galois.go). -/
structure ErasureCoder where
  size : Nat
  backends : List Backend
  code : Code

/-- `start := off - (off % n)` — the stripe-aligned floor computed by
`denseReadAt` and `denseWriteAt`. -/
def alignStart (off n : Nat) : Nat := off - off % n

/-- `reduce := (off + l) % n` in `denseReadAt` and `denseWriteAt`. -/
def alignReduce (off l n : Nat) : Nat := (off + l) % n

/-- `length := off + l + n - reduce - start` — the length of the
stripe-aligned region computed by `denseReadAt` and `denseWriteAt`. -/
def alignLength (off l n : Nat) : Nat :=
  off + l + n - alignReduce off l n - alignStart off n

/-- `denseReadAt` in galois.go, for a buffer of length `l`: compute the
stripe geometry, read `sliceLen` bytes at `sliceOff` from the backends
(first `n` arrivals, here backend order), decode, and copy the window
`[prePadLen, prePadLen + l)` of the aligned buffer out. Returns the bytes
read; the returned count is `len(buf)`. -/
def denseReadAt (e : ErasureCoder) (l off : Nat) : Except Err (List Nat) := do
  let n := GetN e.code
  let start := alignStart off n
  let length := alignLength off l n
  let prePadLen := off % n
  let sliceOff := start / n
  let sliceLen := length / n
  if e.backends.length < n then .error .tooFewSlices
  else do
    let slices := (List.range n).map (fun i =>
      Slice.mk i sliceLen (backendReadAt (e.backends.getD i default) sliceLen sliceOff))
    let alignedBuffer ← DecodeAligned e.code slices
    return (List.range l).map (fun i => alignedBuffer.getD (prePadLen + i) 0)

/-- `ReadAt` in galois.go: delegate to `denseReadAt`; on success the
returned count is the buffer length. -/
def ReadAt (e : ErasureCoder) (l off : Nat) : Except Err (List Nat × Nat) := do
  let bytes ← denseReadAt e l off
  return (bytes, l)

/-- `denseWriteAt` in galois.go: read the head and tail stripes through
the device's own `ReadAt`, assemble the aligned buffer, encode it, and
write slice `i` to backend `i` at `sliceOff`.  The function returns
`0, nil` on success, so the returned count is 0. -/
def denseWriteAt (e : ErasureCoder) (buf : List Nat) (off : Nat) :
    Except Err (ErasureCoder × Nat) := do
  let n := GetN e.code
  let l := buf.length
  let start := alignStart off n
  let length := alignLength off l n
  let prePadLine ← denseReadAt e n start
  let postPadLine ← denseReadAt e n (start + length - n)
  let prePadLen := off % n
  let alignedBuffer := (List.range length).map (fun i =>
    if i < prePadLen then prePadLine.getD i 0
    else if i < prePadLen + l then buf.getD (i - prePadLen) 0
    else postPadLine.getD (n - (length - i)) 0)
  let slices ← EncodeAligned e.code alignedBuffer
  let sliceOff := start / n
  let backends := (List.range e.backends.length).map (fun i =>
    backendWriteAt (e.backends.getD i default) (slices.getD i default).Data sliceOff)
  return (⟨e.size, backends, e.code⟩, 0)

/-- `WriteAt` in galois.go: delegate to `denseWriteAt` and pass its count
through on success. -/
def WriteAt (e : ErasureCoder) (buf : List Nat) (off : Nat) :
    Except Err (ErasureCoder × Nat) := do
  let r ← denseWriteAt e buf off
  return r

/-! ## The default 3+2 code and a fresh device -/

/-- The generator matrix produced by `NewCode 3 2`: the transformed
Vandermonde matrix over `GF(2^8)/357`, whose top three rows are the
identity and whose bottom two rows are the parity coefficients. -/
def G0 : Matrix := [[1, 0, 0], [0, 1, 0], [0, 0, 1], [1, 1, 6], [15, 8, 20]]

/-- The default 3+2 Reed-Solomon code of the spec's end-to-end scenarios. -/
def defC : Code := ⟨gf, 3, 2, G0⟩

/-- A fresh (all-zero) 3+2 device of size 32. -/
def zdev : ErasureCoder := ⟨32, List.replicate 5 zeroBackend, defC⟩

/-! ## Method-call views for the immutability claim

The Go codec methods take a `*Code` receiver.  The only in-place mutation
in their call graph is `mtx_inv`'s Gauss-Jordan, which `buildMatrix`
applies to a freshly allocated copy of the selected generator rows, and
no statement assigns to the receiver's fields; the receiver after the
call is therefore the receiver before the call.  The state-passing views
below return the receiver alongside the result, mirroring that. -/

/-- `(*Code).EncodeAligned` as a state-passing call on the receiver. -/
def EncodeAlignedM (c : Code) (buf : List Nat) : Code × Except Err (List Slice) :=
  (c, EncodeAligned c buf)

/-- `(*Code).DecodeAligned` as a state-passing call on the receiver. -/
def DecodeAlignedM (c : Code) (slices : List Slice) : Code × Except Err (List Nat) :=
  (c, DecodeAligned c slices)

/-- `(*Code).Rebuild` as a state-passing call on the receiver. -/
def RebuildM (c : Code) (slices : List Slice) : Code × Option (Except Err (List Slice)) :=
  (c, Rebuild c slices)

/-- Total value of a dot product of equal-length vectors. -/
def dotVal (g : GaloisField) (v1 v2 : List Nat) : Nat :=
  (List.zip v1 v2).foldl (fun prd xy => add g prd (mul g xy.1 xy.2)) 0

/-- The slices produced by encoding an aligned buffer with the default
3+2 code, in slice-major form. -/
def encSlices (B : List Nat) : List Slice :=
  (List.range 5).map (fun j =>
    ⟨j, B.length / 3, (chunks 3 B).map (fun v => dotVal gf (G0.getD j []) v % 256)⟩)

/-! ## C7: every non-zero element of the default field has an inverse -/

/-- Certificate table: `invTab[x]` is the inverse of `x` in
`GF(2^8)/357` (entry 0 is a placeholder for the non-invertible 0). -/
def invTab : List Nat :=
  [0, 1, 178, 220, 89, 151, 110, 245, 158, 83, 249, 65, 55, 171, 200, 174,
   79, 185, 155, 251, 206, 39, 146, 186, 169, 112, 231, 49, 100, 63, 87, 202,
   149, 70, 238, 66, 255, 121, 207, 21, 103, 91, 161, 243, 73, 204, 93, 157,
   230, 27, 56, 180, 193, 138, 170, 12, 50, 181, 173, 214, 153, 217, 101, 29,
   248, 11, 35, 239, 119, 106, 33, 148, 205, 44, 142, 176, 213, 145, 184, 16,
   129, 125, 159, 9, 226, 108, 203, 30, 150, 4, 102, 41, 156, 46, 252, 165,
   115, 233, 191, 225, 28, 62, 90, 40, 210, 208, 69, 118, 85, 227, 6, 244,
   25, 168, 232, 96, 228, 246, 107, 68, 254, 37, 222, 234, 128, 81, 188, 240,
   124, 80, 183, 167, 163, 141, 197, 236, 137, 136, 53, 192, 162, 133, 74, 177,
   212, 77, 22, 187, 71, 32, 88, 5, 216, 60, 250, 18, 92, 47, 8, 82,
   242, 42, 140, 132, 253, 95, 182, 131, 113, 24, 54, 13, 215, 58, 15, 201,
   75, 143, 2, 221, 51, 57, 166, 130, 78, 17, 23, 147, 126, 241, 224, 98,
   139, 52, 198, 218, 237, 134, 194, 219, 14, 175, 31, 86, 45, 72, 20, 38,
   105, 211, 104, 209, 144, 76, 59, 172, 152, 61, 195, 199, 3, 179, 122, 235,
   190, 99, 84, 109, 116, 247, 48, 26, 114, 97, 123, 223, 135, 196, 34, 67,
   127, 189, 160, 43, 111, 7, 117, 229, 64, 10, 154, 19, 94, 164, 120, 36]

/-! ## General lemmas -/

set_option maxRecDepth 8000 in
/-- `NewCode 3 2` succeeds and produces exactly `defC` (checked by kernel
computation of the whole construction, including the Vandermonde
transform and its field divisions). -/
theorem NewCode_eq_defC : NewCode 3 2 = .ok defC := rfl

theorem ok_bind {β γ : Type} (b : β) (f : β → Except Err γ) :
    (Except.ok b >>= f) = f b := rfl

theorem vecVecDot_ok (g : GaloisField) {v1 v2 : List Nat} (h : v1.length = v2.length) :
    vecVecDot g v1 v2 = .ok (dotVal g v1 v2) := by
  unfold vecVecDot dotVal
  rw [if_neg (by omega)]

theorem mapM_ok {α β : Type} (f : α → Except Err β) (g : α → β) :
    ∀ (l : List α), (∀ a ∈ l, f a = .ok (g a)) → l.mapM f = .ok (l.map g) := by
  intro l
  induction l with
  | nil => intro _; rfl
  | cons a t ih =>
    intro h
    rw [List.mapM_cons, h a (by simp), ih (fun x hx => h x (by simp [hx]))]
    rfl

theorem mtxVecDot_ok (g : GaloisField) {A : Matrix} {v : List Nat}
    (h : ∀ row ∈ A, row.length = v.length) :
    mtxVecDot g A v = .ok (A.map (fun row => dotVal g row v)) :=
  mapM_ok _ _ A (fun row hrow => vecVecDot_ok g (h row hrow))

theorem chunksF_spec {n : Nat} (hn : 0 < n) :
    ∀ (fuel : Nat) (l : List Nat), l.length ≤ fuel → l.length % n = 0 →
      (chunksF fuel n l).length = l.length / n ∧
      (∀ ch ∈ chunksF fuel n l, ch.length = n ∧ ∀ b ∈ ch, b ∈ l) ∧
      (chunksF fuel n l).foldr (fun a acc => a ++ acc) [] = l := by
  intro fuel
  induction fuel with
  | zero =>
    intro l hle _
    have hl : l = [] := List.eq_nil_of_length_eq_zero (Nat.le_zero.mp hle)
    subst hl
    exact ⟨by simp [chunksF], by simp [chunksF], by simp [chunksF]⟩
  | succ fuel ih =>
    intro l hle hmod
    cases l with
    | nil => exact ⟨by simp [chunksF], by simp [chunksF], by simp [chunksF]⟩
    | cons a t =>
      have hge : n ≤ (a :: t).length := by
        by_contra hlt
        rw [Nat.mod_eq_of_lt (by omega)] at hmod
        simp at hmod
      obtain ⟨q, hL⟩ := Nat.dvd_of_mod_eq_zero hmod
      have hqpos : 0 < q := by
        rcases Nat.eq_zero_or_pos q with h0 | h1
        · subst h0
          simp at hL
        · exact h1
      have hfac : n * q - n = n * (q - 1) := by
        cases q with
        | zero => omega
        | succ p =>
          rw [Nat.mul_succ]
          simp
      have hdlen : ((a :: t).drop n).length = (a :: t).length - n := by
        simp [List.length_drop]
      have hdmod : ((a :: t).drop n).length % n = 0 := by
        rw [hdlen, hL, hfac, Nat.mul_mod_right]
      have ih' := ih ((a :: t).drop n) (by rw [hdlen]; simp at hle ⊢; omega) hdmod
      have htake : ((a :: t).take n).length = n := by
        rw [List.length_take]
        omega
      have hchunk : chunksF (fuel + 1) n (a :: t) =
          (a :: t).take n :: chunksF fuel n ((a :: t).drop n) := rfl
      refine ⟨?_, ?_, ?_⟩
      · rw [hchunk, List.length_cons, ih'.1, hdlen, hL, hfac,
            Nat.mul_div_cancel_left _ hn, Nat.mul_div_cancel_left _ hn]
        omega
      · intro ch hch
        rw [hchunk] at hch
        rcases List.mem_cons.mp hch with h1 | h1
        · subst h1
          exact ⟨htake, fun b hb => List.mem_of_mem_take hb⟩
        · obtain ⟨hlen, hmem⟩ := ih'.2.1 ch h1
          exact ⟨hlen, fun b hb => (List.drop_sublist n (a :: t)).mem (hmem b hb)⟩
      · rw [hchunk, List.foldr_cons, ih'.2.2, List.take_append_drop]

theorem chunks_spec {n : Nat} (hn : 0 < n) (l : List Nat) (hmod : l.length % n = 0) :
    (chunks n l).length = l.length / n ∧
    (∀ ch ∈ chunks n l, ch.length = n ∧ ∀ b ∈ ch, b ∈ l) ∧
    (chunks n l).foldr (fun a acc => a ++ acc) [] = l :=
  chunksF_spec hn l.length l (Nat.le_refl _) hmod

theorem getD_map_in_range {α β : Type} (f : α → β) (l : List α) (i : Nat)
    (h : i < l.length) (d : β) (d0 : α) :
    (l.map f).getD i d = f (l.getD i d0) := by
  rw [List.getD_eq_getElem _ _ (by simpa using h), List.getD_eq_getElem _ _ h,
      List.getElem_map]

theorem map_getD_range {α : Type} (l : List α) (d : α) :
    (List.range l.length).map (fun i => l.getD i d) = l := by
  refine List.ext_getElem (by simp) ?_
  intro i h1 h2
  simp only [List.getElem_map, List.getElem_range]
  rw [List.getD_eq_getElem _ _ h2]

theorem map_mod256_id (l : List Nat) (h : ∀ b ∈ l, b < 256) :
    l.map (fun x => x % 256) = l := by
  have h2 : ∀ b ∈ l, b % 256 = b := fun b hb => Nat.mod_eq_of_lt (h b hb)
  calc l.map (fun x => x % 256) = l.map id := List.map_congr_left h2
  _ = l := List.map_id l

theorem foldr_mod_append (C : List (List Nat)) (h : ∀ ch ∈ C, ∀ b ∈ ch, b < 256) :
    C.foldr (fun dat acc => dat.map (fun x => x % 256) ++ acc) [] =
    C.foldr (fun a acc => a ++ acc) [] := by
  induction C with
  | nil => rfl
  | cons ch t ih =>
    simp only [List.foldr_cons]
    rw [map_mod256_id ch (h ch (by simp)), ih (fun c hc => h c (by simp [hc]))]

theorem mul_zero_left (y : Nat) : mul gf 0 y = 0 := by
  have h1 : mulLoop 0 y 0 8 0 = 0 := rfl
  show redLoop 8 101 7 (mulLoop 0 y 0 8 0) = 0
  rw [h1]
  rfl

theorem redLoop_small : ∀ (cnt prd : Nat), prd < 256 → redLoop 8 101 cnt prd = prd := by
  intro cnt
  induction cnt with
  | zero => intro prd _; rfl
  | succ j ih =>
    intro prd h
    have hbit : prd &&& (1 <<< (8 + j)) = 0 := by
      have h1 : (1 : Nat) <<< (8 + j) = 2 ^ (8 + j) := by
        rw [Nat.shiftLeft_eq, Nat.one_mul]
      rw [h1, Nat.and_two_pow, Nat.testBit_eq_false_of_lt (by
        calc prd < 256 := h
        _ = 2 ^ 8 := rfl
        _ ≤ 2 ^ (8 + j) := Nat.pow_le_pow_right (by omega) (by omega))]
      simp
    unfold redLoop redStep
    rw [if_neg (by simp [hbit])]
    exact ih prd h

theorem mul_one_left (y : Nat) (h : y < 256) : mul gf 1 y = y := by
  have h1 : mulLoop 1 y 0 8 0 = y := by
    show (if (1 : Nat) &&& 1 ≠ 0 then 0 ^^^ (y <<< 0) else 0) = y
    rw [if_pos (by decide)]
    simp
  show redLoop 8 101 7 (mulLoop 1 y 0 8 0) = y
  rw [h1]
  exact redLoop_small 7 y h

theorem dot_e0 (a b c : Nat) (ha : a < 256) : dotVal gf [1, 0, 0] [a, b, c] = a := by
  show add gf (add gf (add gf 0 (mul gf 1 a)) (mul gf 0 b)) (mul gf 0 c) = a
  rw [mul_one_left a ha, mul_zero_left, mul_zero_left]
  simp [add]

theorem dot_e1 (a b c : Nat) (hb : b < 256) : dotVal gf [0, 1, 0] [a, b, c] = b := by
  show add gf (add gf (add gf 0 (mul gf 0 a)) (mul gf 1 b)) (mul gf 0 c) = b
  rw [mul_one_left b hb, mul_zero_left, mul_zero_left]
  simp [add]

theorem dot_e2 (a b c : Nat) (hc : c < 256) : dotVal gf [0, 0, 1] [a, b, c] = c := by
  show add gf (add gf (add gf 0 (mul gf 0 a)) (mul gf 0 b)) (mul gf 1 c) = c
  rw [mul_one_left c hc, mul_zero_left, mul_zero_left]
  simp [add]

theorem decodeAligned_eq_of (c : Code) (slices : List Slice) (M : Matrix)
    (hlen : ¬ slices.length < c.n)
    (hbm : buildMatrix c slices = .ok M)
    (res : List (List Nat))
    (hmapM : (List.range ((slices.getD 0 default).Data).length).mapM
        (fun i => mtxVecDot c.field M ((List.range c.n).map (fun j =>
          ((slices.getD j default).Data).getD i 0))) = .ok res) :
    DecodeAligned c slices =
      .ok (res.foldr (fun dat acc => dat.map (fun x => x % 256) ++ acc) []) := by
  unfold DecodeAligned
  rw [if_neg hlen]
  simp only [hbm, ok_bind]
  simp only [hmapM, ok_bind]
  rfl


theorem encodeAligned_defC (B : List Nat) (h3 : B.length % 3 = 0) :
    EncodeAligned defC B = .ok (encSlices B) := by
  obtain ⟨hclen, hcmem, -⟩ := chunks_spec (n := 3) (by omega) B h3
  have hmapM0 : (chunks 3 B).mapM (fun v => mtxVecDot gf G0 v) =
      .ok ((chunks 3 B).map (fun v => G0.map (fun row => dotVal gf row v))) := by
    refine mapM_ok _ _ _ ?_
    intro v hv
    refine mtxVecDot_ok gf ?_
    intro row hrow
    rw [(hcmem v hv).1]
    rw [show G0 = [[1,0,0],[0,1,0],[0,0,1],[1,1,6],[15,8,20]] from rfl] at hrow
    simp only [List.mem_cons] at hrow
    rcases hrow with rfl | rfl | rfl | rfl | rfl | hbad
    · rfl
    · rfl
    · rfl
    · rfl
    · rfl
    · exact absurd hbad (List.not_mem_nil _)
  have hmapM : (chunks defC.n B).mapM (fun v => mtxVecDot defC.field defC.mtx v) =
      .ok ((chunks 3 B).map (fun v => G0.map (fun row => dotVal gf row v))) := hmapM0
  have henc : EncodeAligned defC B = .ok ((List.range 5).map (fun j =>
      ⟨j, B.length / 3,
       ((chunks 3 B).map (fun v => G0.map (fun row => dotVal gf row v))).map
         (fun cod => cod.getD j 0 % 256)⟩)) := by
    have h3' : B.length % defC.n = 0 := h3
    unfold EncodeAligned
    rw [if_neg (not_not_intro h3'), hmapM, ok_bind]
    rfl
  rw [henc]
  unfold encSlices
  congr 1
  refine List.map_congr_left ?_
  intro j hj
  have hj5 : j < 5 := by simpa using hj
  congr 1
  rw [List.map_map]
  refine List.map_congr_left ?_
  intro v _
  show (G0.map (fun row => dotVal gf row v)).getD j 0 % 256 =
    dotVal gf (G0.getD j []) v % 256
  rw [getD_map_in_range _ _ j (by simpa [G0] using hj5) 0 []]

/-! ## Error-propagation lemmas and C6: construction fails with InsufficientFieldSize iff n+k > 2^m

`mtx_vandermonde` is the only producer of `InsufficientFieldSize`; the
subsequent Vandermonde transform can only fail with `ZeroDivision` (from
`div`), so `NewCode` returns `InsufficientFieldSize` exactly when
`n + k` exceeds the field size. -/

/-- A failing `Except` bind comes from a failing scrutinee or a failing
continuation. -/
theorem bind_error_cause {β γ : Type} {x : Except Err β} {f : β → Except Err γ} {e : Err}
    (h : (x >>= f) = Except.error e) :
    x = Except.error e ∨ ∃ b, x = Except.ok b ∧ f b = Except.error e := by
  cases x with
  | error e2 =>
    left
    have h2 : (Except.error e2 : Except Err γ) = Except.error e := h
    injection h2 with h3
    rw [h3]
  | ok b =>
    right
    exact ⟨b, rfl, h⟩

/-- `inv` only ever fails with `ZeroDivision`. -/
theorem inv_error {g : GaloisField} {x : Nat} {e : Err}
    (h : inv g x = Except.error e) : e = Err.zeroDivision := by
  unfold inv at h
  split at h
  · have h2 : (Except.error Err.zeroDivision : Except Err Nat) = Except.error e := h
    injection h2 with h3
    exact h3.symm
  · split at h <;> exact Except.noConfusion h

/-- `div` only ever fails with `ZeroDivision`. -/
theorem div_error {g : GaloisField} {x y : Nat} {e : Err}
    (h : div g x y = Except.error e) : e = Err.zeroDivision := by
  unfold div at h
  rcases bind_error_cause h with h1 | ⟨b, _, h1⟩
  · exact inv_error h1
  · exact Except.noConfusion h1

/-- Errors of a monadic fold over `Except` all satisfy `P` when every
step's errors do. -/
theorem foldlM_error_cause {α β : Type} (f : β → α → Except Err β) (P : Err → Prop)
    (hf : ∀ b a e, f b a = Except.error e → P e) :
    ∀ (l : List α) (b : β) (e : Err), l.foldlM f b = Except.error e → P e := by
  intro l
  induction l with
  | nil =>
    intro b e h
    have h2 : (Except.ok b : Except Err β) = Except.error e := h
    exact Except.noConfusion h2
  | cons a t ih =>
    intro b e h
    rw [List.foldlM_cons] at h
    rcases bind_error_cause h with h1 | ⟨b2, _, h1⟩
    · exact hf b a e h1
    · exact ih b2 e h1

/-- The whole Vandermonde transform fails with `InsufficientFieldSize`
only when the initial Vandermonde generation does, i.e. when `n + k`
exceeds the field size. -/
theorem xform_error_ifs (g : GaloisField) (n k : Nat)
    (h : mtxXformVandermonde g n k = Except.error Err.insufficientFieldSize) :
    n + k > size g := by
  unfold mtxXformVandermonde at h
  rcases bind_error_cause h with h1 | ⟨V, _, h1⟩
  · unfold mtxVandermonde at h1
    split at h1
    · assumption
    · exact Except.noConfusion h1
  · have h2 : Err.insufficientFieldSize = Err.zeroDivision := by
      refine foldlM_error_cause _ (fun e => e = Err.zeroDivision) ?_ _ V _ h1
      intro b a e hstep
      rcases bind_error_cause hstep with h3 | ⟨m2, _, h3⟩
      · refine foldlM_error_cause _ (fun e => e = Err.zeroDivision) ?_ _ b _ h3
        intro b2 a2 e2 hstep2
        rcases bind_error_cause hstep2 with h4 | ⟨v2, _, h4⟩
        · exact div_error h4
        · exact Except.noConfusion h4
      · exact Except.noConfusion h3
    exact Err.noConfusion h2

/-- C6: `NewCode n k` fails with `InsufficientFieldSize` exactly when
`n + k` exceeds the default field's size `2^8 = 256`. -/
theorem newCode_insufficientFieldSize_iff (n k : Nat) (_hn : 1 ≤ n) :
    NewCode n k = Except.error Err.insufficientFieldSize ↔ 256 < n + k := by
  have hsz : size gf = 256 := rfl
  constructor
  · intro h
    unfold NewCode at h
    rcases bind_error_cause h with h1 | ⟨m, _, h1⟩
    · have := xform_error_ifs gf n k h1
      omega
    · exact Except.noConfusion h1
  · intro h
    have hv : mtxVandermonde gf n k = Except.error Err.insufficientFieldSize := by
      unfold mtxVandermonde
      rw [if_pos (by omega)]
    unfold NewCode mtxXformVandermonde
    rw [hv]
    rfl

/-- C6 (witness): the S6 scenario `NewCode 200 100`, which fails with
`InsufficientFieldSize` since `300 > 256`. -/
theorem newCode_insufficientFieldSize_iff_witness :
    1 ≤ 200 ∧
    (NewCode 200 100 = Except.error Err.insufficientFieldSize ↔ 256 < 200 + 100) :=
  ⟨by decide, newCode_insufficientFieldSize_iff 200 100 (by decide)⟩

set_option maxHeartbeats 2000000 in
set_option maxRecDepth 100000 in
/-- Kernel check of the certificate: each table entry is a non-zero field
element that `mul` sends, together with its argument, to 1. -/
theorem invTab_spec : ∀ x : Nat, x < 256 → 0 < x →
    mul gf x (invTab.getD x 0) = 1 ∧ 1 ≤ invTab.getD x 0 ∧ invTab.getD x 0 < 256 := by
  decide

/-- C7: in the default field `GF(2^8)` with `p = 357`, every non-zero
`x < 256` has `inv x = ok y` with `mul x y = 1`: the exhaustive search of
`inv` finds an inverse because one exists in its range. -/
theorem inv_mul_cancel (x : Nat) (h1 : 0 < x) (h2 : x < 256) :
    ∃ y, inv gf x = .ok y ∧ mul gf x y = 1 := by
  have hne : x ≠ 0 := Nat.pos_iff_ne_zero.mp h1
  obtain ⟨hmul, hlo, hhi⟩ := invTab_spec x h2 h1
  have hmem : invTab.getD x 0 ∈ List.range' 1 (size gf - 1) := by
    have hsz : size gf - 1 = 255 := rfl
    rw [hsz]
    exact List.mem_range'_1.mpr ⟨hlo, by omega⟩
  have hsome : ((List.range' 1 (size gf - 1)).find? (fun i => mul gf x i = 1)).isSome := by
    rw [List.find?_isSome]
    exact ⟨_, hmem, by simpa using hmul⟩
  obtain ⟨y, hy⟩ := Option.isSome_iff_exists.mp hsome
  refine ⟨y, ?_, ?_⟩
  · unfold inv
    rw [if_neg hne, hy]
  · have := List.find?_some hy
    simpa using this

/-- C7 (witness): instantiation at `x = 2`, whose inverse is 178. -/
theorem inv_mul_cancel_witness :
    0 < 2 ∧ 2 < 256 ∧ ∃ y, inv gf 2 = .ok y ∧ mul gf 2 y = 1 :=
  ⟨by decide, by decide, inv_mul_cancel 2 (by decide) (by decide)⟩

/-! ## C8: shape and misalignment behaviour of EncodeAligned -/

/-- C8: for a well-formed code (as built by `NewCode`: positive `n`,
`n`-column generator), `EncodeAligned` fails with `Misaligned` exactly
when the buffer length is not a multiple of `n`, and otherwise returns
exactly `n+k` slices, the slice at position `i` carrying index `i` and
length (and data length) `len(buf)/n`. -/
theorem encodeAligned_spec (c : Code) (buf : List Nat)
    (hn : 0 < c.n) (hrows : ∀ row ∈ c.mtx, row.length = c.n)
    (_hmtx : c.mtx.length = c.n + c.k) :
    (EncodeAligned c buf = .error .misaligned ↔ buf.length % c.n ≠ 0) ∧
    (buf.length % c.n = 0 →
      ∃ sl, EncodeAligned c buf = .ok sl ∧ sl.length = c.n + c.k ∧
        ∀ i < c.n + c.k,
          (sl.getD i default).Index = i ∧
          (sl.getD i default).Length = buf.length / c.n ∧
          (sl.getD i default).Data.length = buf.length / c.n) := by
  by_cases hal : buf.length % c.n = 0
  · obtain ⟨hclen, hcmem, -⟩ := chunks_spec hn buf hal
    have hmapM : (chunks c.n buf).mapM (fun v => mtxVecDot c.field c.mtx v) =
        .ok ((chunks c.n buf).map (fun v => c.mtx.map (fun row => dotVal c.field row v))) := by
      refine mapM_ok _ _ _ ?_
      intro v hv
      refine mtxVecDot_ok c.field ?_
      intro row hrow
      rw [hrows row hrow, (hcmem v hv).1]
    have henc : EncodeAligned c buf = .ok ((List.range (c.n + c.k)).map (fun j =>
        ⟨j, buf.length / c.n,
         ((chunks c.n buf).map (fun v => c.mtx.map (fun row => dotVal c.field row v))).map
           (fun cod => cod.getD j 0 % 256)⟩)) := by
      unfold EncodeAligned
      rw [if_neg (by omega), hmapM, ok_bind]
      rfl
    constructor
    · rw [henc]
      constructor
      · intro h
        exact Except.noConfusion h
      · intro h
        exact absurd hal h
    · intro _
      refine ⟨_, henc, by simp, ?_⟩
      intro i hi
      rw [getD_map_in_range _ _ i (by simpa using hi) _ 0, List.getD_eq_getElem _ _ (by simpa using hi),
          List.getElem_range]
      refine ⟨rfl, rfl, ?_⟩
      simp [hclen]
  · constructor
    · unfold EncodeAligned
      rw [if_pos hal]
      exact ⟨fun _ => hal, fun _ => rfl⟩
    · intro h
      exact absurd h hal

/-- C8 (witness): instantiation at the default 3+2 code and the aligned
buffer `[10, 20, 30]`. -/
theorem encodeAligned_spec_witness :
    (0 < defC.n ∧ (∀ row ∈ defC.mtx, row.length = defC.n) ∧
      defC.mtx.length = defC.n + defC.k) ∧
    ((EncodeAligned defC [10, 20, 30] = .error .misaligned ↔ (3 : Nat) % defC.n ≠ 0) ∧
     ((3 : Nat) % defC.n = 0 →
      ∃ sl, EncodeAligned defC [10, 20, 30] = .ok sl ∧ sl.length = defC.n + defC.k ∧
        ∀ i < defC.n + defC.k,
          (sl.getD i default).Index = i ∧
          (sl.getD i default).Length = 3 / defC.n ∧
          (sl.getD i default).Data.length = 3 / defC.n)) :=
  ⟨⟨by decide, by decide, by decide⟩,
   encodeAligned_spec defC [10, 20, 30] (by decide) (by decide) (by decide)⟩

/-! ## C1: codec round-trip for the default code -/

/-- C1: codec round-trip over the default field (`m = 8`, `p = 357`) at
the spec's default geometry `n = 3`, `k = 2`: for every byte buffer `B`
whose length is a multiple of `n`, decoding the slices produced by
`EncodeAligned` yields `B` back.  (`DecodeAligned` uses the first `n`
slices, whose generator rows form the identity.) -/
theorem decode_encode_roundtrip (c : Code) (hc : NewCode 3 2 = .ok c)
    (B : List Nat) (h3 : B.length % 3 = 0) (hlt : ∀ b ∈ B, b < 256) :
    ∃ sl, EncodeAligned c B = .ok sl ∧ DecodeAligned c sl = .ok B := by
  have hcd : c = defC := by
    rw [NewCode_eq_defC] at hc
    injection hc with h
    exact h.symm
  subst hcd
  obtain ⟨hclen, hcmem, hcjoin⟩ := chunks_spec (n := 3) (by omega) B h3
  refine ⟨encSlices B, encodeAligned_defC B h3, ?_⟩
  -- the per-stripe decode: each stripe of the slice data is the original chunk
  have hstripe : ∀ i ∈ List.range (chunks 3 B).length,
      mtxVecDot gf [[1,0,0],[0,1,0],[0,0,1]]
        ((List.range 3).map (fun j => ((encSlices B).getD j default).Data.getD i 0)) =
      .ok ((chunks 3 B).getD i []) := by
    intro i hi
    have hiL : i < (chunks 3 B).length := by simpa using hi
    have hmem : (chunks 3 B).getD i [] ∈ chunks 3 B := by
      rw [List.getD_eq_getElem _ _ hiL]
      exact List.getElem_mem hiL
    obtain ⟨hcl, hcb⟩ := hcmem _ hmem
    obtain ⟨a, b, c', habc⟩ := List.length_eq_three.mp hcl
    have ha : a < 256 := hlt a (hcb a (by rw [habc]; simp))
    have hb : b < 256 := hlt b (hcb b (by rw [habc]; simp))
    have hc' : c' < 256 := hlt c' (hcb c' (by rw [habc]; simp))
    have hvec : (List.range 3).map (fun j => ((encSlices B).getD j default).Data.getD i 0) =
        [a, b, c'] := by
      show [((encSlices B).getD 0 default).Data.getD i 0,
            ((encSlices B).getD 1 default).Data.getD i 0,
            ((encSlices B).getD 2 default).Data.getD i 0] = [a, b, c']
      have h0 : ((encSlices B).getD 0 default).Data.getD i 0 = a := by
        show ((chunks 3 B).map (fun v => dotVal gf (G0.getD 0 []) v % 256)).getD i 0 = a
        rw [getD_map_in_range _ _ i hiL 0 [], habc]
        show dotVal gf [1, 0, 0] [a, b, c'] % 256 = a
        rw [dot_e0 a b c' ha]
        exact Nat.mod_eq_of_lt ha
      have h1 : ((encSlices B).getD 1 default).Data.getD i 0 = b := by
        show ((chunks 3 B).map (fun v => dotVal gf (G0.getD 1 []) v % 256)).getD i 0 = b
        rw [getD_map_in_range _ _ i hiL 0 [], habc]
        show dotVal gf [0, 1, 0] [a, b, c'] % 256 = b
        rw [dot_e1 a b c' hb]
        exact Nat.mod_eq_of_lt hb
      have h2 : ((encSlices B).getD 2 default).Data.getD i 0 = c' := by
        show ((chunks 3 B).map (fun v => dotVal gf (G0.getD 2 []) v % 256)).getD i 0 = c'
        rw [getD_map_in_range _ _ i hiL 0 [], habc]
        show dotVal gf [0, 0, 1] [a, b, c'] % 256 = c'
        rw [dot_e2 a b c' hc']
        exact Nat.mod_eq_of_lt hc'
      rw [h0, h1, h2]
    rw [hvec, habc]
    have hdot : mtxVecDot gf [[1,0,0],[0,1,0],[0,0,1]] [a, b, c'] =
        .ok ([[1,0,0],[0,1,0],[0,0,1]].map (fun row => dotVal gf row [a, b, c'])) := by
      refine mtxVecDot_ok gf ?_
      intro row hrow
      simp only [List.mem_cons] at hrow
      rcases hrow with rfl | rfl | rfl | hbad
      · rfl
      · rfl
      · rfl
      · exact absurd hbad (List.not_mem_nil _)
    rw [hdot]
    show Except.ok [dotVal gf [1,0,0] [a,b,c'], dotVal gf [0,1,0] [a,b,c'],
      dotVal gf [0,0,1] [a,b,c']] = _
    rw [dot_e0 a b c' ha, dot_e1 a b c' hb, dot_e2 a b c' hc']
  have hmapM : (List.range ((encSlices B).getD 0 default).Data.length).mapM
      (fun i => mtxVecDot defC.field [[1,0,0],[0,1,0],[0,0,1]]
        ((List.range defC.n).map (fun j => ((encSlices B).getD j default).Data.getD i 0))) =
      .ok ((List.range (chunks 3 B).length).map (fun i => (chunks 3 B).getD i [])) := by
    have hL : ((encSlices B).getD 0 default).Data.length = (chunks 3 B).length := by
      show ((chunks 3 B).map (fun v => dotVal gf (G0.getD 0 []) v % 256)).length =
        (chunks 3 B).length
      exact List.length_map _ _
    rw [hL]
    exact mapM_ok _ _ _ hstripe
  have hdec := decodeAligned_eq_of defC (encSlices B) [[1,0,0],[0,1,0],[0,0,1]]
    (by decide : ¬ (5 : Nat) < 3) rfl _ hmapM
  rw [hdec]
  rw [map_getD_range (chunks 3 B) []]
  rw [foldr_mod_append _ (fun ch hch => fun x hx => hlt x ((hcmem ch hch).2 x hx))]
  rw [hcjoin]

set_option maxRecDepth 8000 in
/-- C1 (witness): the S2 scenario, `B = "abc"`. -/
theorem decode_encode_roundtrip_witness :
    NewCode 3 2 = .ok defC ∧ ([97, 98, 99] : List Nat).length % 3 = 0 ∧
    (∀ b ∈ ([97, 98, 99] : List Nat), b < 256) ∧
    ∃ sl, EncodeAligned defC [97, 98, 99] = .ok sl ∧
      DecodeAligned defC sl = .ok [97, 98, 99] :=
  ⟨rfl, by decide, by decide,
   decode_encode_roundtrip defC rfl [97, 98, 99] (by decide) (by decide)⟩

/-! ## Claim theorems: the device geometry (C4), write count (C5),
rebuild panic (C3), order sensitivity of decode (C2, C9), and
immutability (C10) -/

/-- C4 (counterexample): for the already-aligned request `off = 0`,
`l = 3`, `n = 3`, the stripe-aligned end computed by `denseReadAt` /
`denseWriteAt` (`start + length`) is 6 — one full extra stripe — while
the claimed formula `off + l + (n - ((off+l) mod n)) mod n` gives 3. -/
theorem alignLength_end_counterexample :
    alignStart 0 3 + alignLength 0 3 3 = 6 ∧
    0 + 3 + (3 - (0 + 3) % 3) % 3 = 3 ∧ (6 : Nat) ≠ 3 := by
  refine ⟨by decide, by decide, by decide⟩

/-- C4 (amended): the stripe-aligned end computed by the device is
`off + l + (n - ((off+l) mod n))` with no reduction of the padding term
modulo `n`: it agrees with the claimed formula whenever `(off+l) mod n`
is non-zero, and adds one full extra stripe (`end = off + l + n`) when
the request already ends stripe-aligned. -/
theorem alignLength_end_amended (off l n : Nat) (hn : 0 < n) :
    alignStart off n + alignLength off l n = off + l + (n - (off + l) % n) ∧
    ((off + l) % n ≠ 0 →
      alignStart off n + alignLength off l n = off + l + (n - (off + l) % n) % n) ∧
    ((off + l) % n = 0 →
      alignStart off n + alignLength off l n = off + l + n) := by
  have h1 : off % n ≤ off := Nat.mod_le off n
  have h2 : (off + l) % n < n := Nat.mod_lt _ hn
  unfold alignStart alignLength alignReduce alignStart
  refine ⟨by omega, fun h => ?_, fun h => by omega⟩
  have h3 : (n - (off + l) % n) % n = n - (off + l) % n :=
    Nat.mod_eq_of_lt (by omega)
  omega

/-- C4 (witness for the amended claim): instantiation at `off = 1`,
`l = 2`, `n = 3`, where the request ends aligned and the device end is
`1 + 2 + 3 = 6`. -/
theorem alignLength_end_amended_witness :
    0 < 3 ∧
    (alignStart 1 3 + alignLength 1 2 3 = 1 + 2 + (3 - (1 + 2) % 3) ∧
     ((1 + 2) % 3 ≠ 0 →
       alignStart 1 3 + alignLength 1 2 3 = 1 + 2 + (3 - (1 + 2) % 3) % 3) ∧
     ((1 + 2) % 3 = 0 → alignStart 1 3 + alignLength 1 2 3 = 1 + 2 + 3)) :=
  ⟨by decide, alignLength_end_amended 1 2 3 (by decide)⟩

/-- C5: on a fresh 3+2 device, a successful `WriteAt` of the one-byte
buffer `[42]` at offset 0 returns the count 0 — `denseWriteAt` ends with
`return 0, nil` — not the number of user bytes written, 1. -/
theorem writeAt_returns_zero_not_len :
    (WriteAt zdev [42] 0).map Prod.snd = .ok 0 ∧
    ([42] : List Nat).length = 1 ∧ (0 : Nat) ≠ 1 :=
  ⟨rfl, rfl, by decide⟩

/-- C3: the S4 scenario. Encoding `"abcdef"` and handing `Rebuild` the
three slices 0, 2, 3 (an n-subset: slices 1 and 4 dropped) makes the
result-initialization loop read `slices[3]` of a 3-element slice list —
an index-out-of-range panic (modelled as `none`) instead of the
reconstructed 5 slices. -/
theorem rebuild_n_subset_panics :
    ((EncodeAligned defC [97, 98, 99, 100, 101, 102]).map (fun sl =>
      Rebuild defC [sl.getD 0 default, sl.getD 2 default, sl.getD 3 default]))
    = .ok none := rfl

/-- C2: encoding `B = "abc"` and removing slices 3 and 4 (at most K = 2
indices), `DecodeAligned` applied to the three remaining slices in
arrival order 2, 0, 1 returns `[97, 98, 1]`, not `B = [97, 98, 99]`:
the Gauss-Jordan fixup for zero diagonal elements in `mtx_inv` corrupts
already-processed columns for this row order. -/
theorem decode_drop_two_wrong_bytes :
    EncodeAligned defC [97, 98, 99] =
      .ok [⟨0, 1, [97]⟩, ⟨1, 1, [98]⟩, ⟨2, 1, [99]⟩, ⟨3, 1, [44]⟩, ⟨4, 1, [184]⟩] ∧
    DecodeAligned defC [⟨2, 1, [99]⟩, ⟨0, 1, [97]⟩, ⟨1, 1, [98]⟩] = .ok [97, 98, 1] ∧
    ([97, 98, 1] : List Nat) ≠ [97, 98, 99] :=
  ⟨rfl, rfl, by decide⟩

/-- C9: `DecodeAligned` is not invariant under permutation of its input
list: the three slices of indices 0, 1, 2 (distinct, valid, equal
lengths) decode to `[97, 98, 99]` in index order but to `[97, 98, 1]`
in arrival order 2, 0, 1. -/
theorem decode_not_permutation_invariant :
    DecodeAligned defC [⟨0, 1, [97]⟩, ⟨1, 1, [98]⟩, ⟨2, 1, [99]⟩] = .ok [97, 98, 99] ∧
    DecodeAligned defC [⟨2, 1, [99]⟩, ⟨0, 1, [97]⟩, ⟨1, 1, [98]⟩] = .ok [97, 98, 1] ∧
    ([97, 98, 99] : List Nat) ≠ [97, 98, 1] :=
  ⟨rfl, rfl, by decide⟩

/-- C10: a code is immutable: every codec call returns the receiver —
field descriptor, `n`, `k`, and generator matrix included — unchanged,
also when the call's result is an error; the in-place Gauss-Jordan of
`mtx_inv` acts only on the fresh copy `buildMatrix` makes. -/
theorem code_immutable (c : Code) (buf : List Nat) (sl sl' : List Slice) :
    (EncodeAlignedM c buf).1 = c ∧ (DecodeAlignedM c sl).1 = c ∧
    (RebuildM c sl').1 = c :=
  ⟨rfl, rfl, rfl⟩

end RS
